import Mathlib

/-!
Verification of the extract/prepare/retry pipeline of `bevy-into-render-asset`
(`src/lib.rs`), shallowly embedded in Lean 4.

Embedding choices:
- Asset handles and target identities are `Nat`.
- `HashSet<Handle>` (the `changed_assets` set) is an insertion-ordered
  duplicate-free list: `hsInsert` is a no-op when the element is present,
  `hsRemove` filters it out.  Only membership matters to the statements.
- `HashMap<Handle<Into>, PreparedAsset>` (the `IntoRenderAssets` store) is an
  association list with key-replacing `insertA` and key-erasing `removeA`.
- `prepare_asset_into` takes the extracted asset and the mutable system param;
  mutation of the param is modelled by explicit state passing
  (`β → σ → Except (PrepareAssetError β) γ × σ`).
- `handle.map_weak()` is `mw : Nat → Option Nat`; `none` models
  `Err(pending handle)`.  The `panic!` branches of `prepare_assets` are
  modelled by the whole function returning `none`.
- The prepare phases additionally accumulate a ghost `log` recording, in call
  order, each invocation of `prepare_asset_into` (its handle, its argument and
  its outcome).  The log does not influence any other component.
-/

/-- `AssetEvent<A>` from bevy, restricted to the three variants the extract
system matches on. -/
inductive AssetEvent where
  | created (handle : Nat)
  | modified (handle : Nat)
  | removed (handle : Nat)
deriving DecidableEq, Repr

/-- `HashSet::insert`: add `h` unless already present (insertion order kept). -/
def hsInsert (s : List Nat) (h : Nat) : List Nat :=
  if h ∈ s then s else s ++ [h]

/-- `HashSet::remove`: drop `h` from the set. -/
def hsRemove (s : List Nat) (h : Nat) : List Nat :=
  s.filter (fun x => x ≠ h)

/-- One step of the event loop of `extract_render_asset` (src/lib.rs:120-130):
`Created`/`Modified` insert into `changed_assets`, `Removed` erases from
`changed_assets` and pushes onto `removed`. -/
def trackStep (acc : List Nat × List Nat) (ev : AssetEvent) : List Nat × List Nat :=
  match ev with
  | .created h => (hsInsert acc.1 h, acc.2)
  | .modified h => (hsInsert acc.1 h, acc.2)
  | .removed h => (hsRemove acc.1 h, acc.2 ++ [h])

/-- The event loop of `extract_render_asset`: the `(changed_assets, removed)`
pair produced from the cycle's event sequence. -/
def trackEvents (events : List AssetEvent) : List Nat × List Nat :=
  events.foldl trackStep ([], [])

/-- `ExtractedAssets<A>` (src/lib.rs:92-95): the extracted `(handle, asset)`
pairs and the removed handles of the current frame. -/
structure ExtractedAssets (β : Type) where
  extracted : List (Nat × β)
  removed : List Nat
deriving DecidableEq, Repr

/-- `extract_render_asset` (src/lib.rs:113-143): fold the events, then for each
changed handle look the asset up (`assets.get`) and extract it; handles whose
asset is absent are skipped.  `assets` models `Assets<A>::get`, `ex` models
`A::extract_asset`. -/
def extract_render_asset {α β : Type} (assets : Nat → Option α) (ex : α → β)
    (events : List AssetEvent) : ExtractedAssets β :=
  let tracked := trackEvents events
  { extracted := tracked.1.filterMap (fun h => (assets h).map (fun a => (h, ex a)))
    removed := tracked.2 }

/-- `PrepareAssetError<E>` from bevy's `render_asset` module: the single
variant carries the extracted asset back for a retry next frame. -/
inductive PrepareAssetError (β : Type) where
  | retryNextUpdate (extracted_asset : β)
deriving DecidableEq, Repr

/-- The `IntoRenderAssets<A>` store: association list keyed by target
identity. -/
abbrev RenderAssets (γ : Type) : Type := List (Nat × γ)

/-- `HashMap::get` on the store. -/
def lookupA {γ : Type} (t : Nat) : RenderAssets γ → Option γ
  | [] => none
  | (t', v) :: rest => if t' = t then some v else lookupA t rest

/-- `HashMap::insert` on the store: replaces any entry at the key. -/
def insertA {γ : Type} (t : Nat) (v : γ) (m : RenderAssets γ) : RenderAssets γ :=
  (t, v) :: m.filter (fun p => p.1 ≠ t)

/-- `HashMap::remove` on the store. -/
def removeA {γ : Type} (t : Nat) (m : RenderAssets γ) : RenderAssets γ :=
  m.filter (fun p => p.1 ≠ t)

/-- Ghost record of one call to `prepare_asset_into`: the handle and extracted
asset passed in, and the outcome (`ok` with the derived target identity and
prepared asset, or `retry` with the asset handed back). -/
inductive PrepareCall (β γ : Type) where
  | ok (handle : Nat) (extracted_asset : β) (target : Nat) (prepared_asset : γ)
  | retry (handle : Nat) (extracted_asset : β) (returned_asset : β)
deriving DecidableEq, Repr

/-- The `(handle, extracted_asset)` argument pair of a recorded call. -/
def PrepareCall.input {β γ : Type} : PrepareCall β γ → Nat × β
  | .ok h e _ _ => (h, e)
  | .retry h e _ => (h, e)

/-- Result state of a prepare phase / of `prepare_assets`: the store, the
`PrepareNextFrameAssets` queue, the system param, and the ghost call log. -/
structure PrepRes (β γ σ : Type) where
  render_assets : RenderAssets γ
  prepare_next_frame : List (Nat × β)
  param : σ
  log : List (PrepareCall β γ)
deriving DecidableEq

/-- One prepare loop of `prepare_assets` (src/lib.rs:167-181 for the queued
assets, 192-206 for the freshly extracted ones): call `prepare_asset_into`
on each `(handle, extracted_asset)`; on `Ok`, resolve the target identity via
`map_weak` — `panic!` (modelled as `none`) if the handle is pending — and
insert the prepared asset; on `RetryNextUpdate`, push the returned asset onto
`prepare_next_frame`. -/
def preparePhase {β γ σ : Type} (mw : Nat → Option Nat)
    (pr : β → σ → Except (PrepareAssetError β) γ × σ) :
    List (Nat × β) → RenderAssets γ → List (Nat × β) → σ →
    List (PrepareCall β γ) → Option (PrepRes β γ σ)
  | [], ra, pend, p, log => some ⟨ra, pend, p, log⟩
  | (h, e) :: rest, ra, pend, p, log =>
    match pr e p with
    | (Except.ok v, p') =>
      match mw h with
      | none => none
      | some t =>
          preparePhase mw pr rest (insertA t v ra) pend p' (log ++ [.ok h e t v])
    | (Except.error (.retryNextUpdate e'), p') =>
        preparePhase mw pr rest ra (pend ++ [(h, e')]) p' (log ++ [.retry h e e'])

/-- The removal loop of `prepare_assets` (src/lib.rs:183-190): resolve each
removed handle via `map_weak` — `panic!` (modelled as `none`) if pending — and
erase the target identity from the store. -/
def removalPhase {γ : Type} (mw : Nat → Option Nat) :
    List Nat → RenderAssets γ → Option (RenderAssets γ)
  | [], ra => some ra
  | h :: rest, ra =>
    match mw h with
    | none => none
    | some t => removalPhase mw rest (removeA t ra)

/-- `prepare_assets` (src/lib.rs:159-207): drain the
`PrepareNextFrameAssets` queue first, then erase removed handles, then prepare
the freshly extracted assets.  Inputs: the frame's `ExtractedAssets`, the
current store, the pending queue and the system param state. -/
def prepare_assets {β γ σ : Type} (mw : Nat → Option Nat)
    (pr : β → σ → Except (PrepareAssetError β) γ × σ)
    (ext : ExtractedAssets β) (ra : RenderAssets γ)
    (pending : List (Nat × β)) (p : σ) : Option (PrepRes β γ σ) :=
  (preparePhase mw pr pending ra [] p []).bind fun r1 =>
    (removalPhase mw ext.removed r1.render_assets).bind fun ra2 =>
      preparePhase mw pr ext.extracted ra2 r1.prepare_next_frame r1.param r1.log

/-- Persistent per-frame pipeline state: the store (`IntoRenderAssets`), the
retry queue (`PrepareNextFrameAssets`) and the prepare system param. -/
structure PipelineState (β γ σ : Type) where
  render_assets : RenderAssets γ
  prepare_next_frame : List (Nat × β)
  param : σ
deriving DecidableEq

/-- One full cycle: `extract_render_asset` on the cycle's events and asset
collection, then `prepare_assets`; returns the new state and the cycle's call
log (or `none` on panic). -/
def runCycle {α β γ σ : Type} (mw : Nat → Option Nat)
    (pr : β → σ → Except (PrepareAssetError β) γ × σ)
    (assets : Nat → Option α) (ex : α → β) (events : List AssetEvent)
    (st : PipelineState β γ σ) : Option (PipelineState β γ σ × List (PrepareCall β γ)) :=
  (prepare_assets mw pr (extract_render_asset assets ex events)
      st.render_assets st.prepare_next_frame st.param).map
    fun r => (⟨r.render_assets, r.prepare_next_frame, r.param⟩, r.log)

/-- Left-biased choice on `Option`, used to phrase "last write wins"
characterizations of the store. -/
def firstSome {γ : Type} : Option γ → Option γ → Option γ
  | some v, _ => some v
  | none, y => y

/-- The prepared asset of the chronologically last `ok` call with target `t`
in a call log (later calls overwrite earlier ones at the same key). -/
def lastOkValue {β γ : Type} (t : Nat) (recs : List (PrepareCall β γ)) : Option γ :=
  recs.foldr
    (fun r acc =>
      firstSome acc
        (match r with
         | .ok _ _ t' v => if t' = t then some v else none
         | .retry _ _ _ => none))
    none

/-! Concrete fixtures used by witnesses, counterexamples and end-to-end
scenarios.  Handles, extracted assets and prepared assets are all `Nat`; the
system param is a `Nat` counting `prepare_asset_into` calls where needed. -/

/-- `map_weak` for fully loaded handles: the target identity reuses the
handle's id. -/
def mwId : Nat → Option Nat := fun h => some h

/-- An asset collection holding asset data `10` at handle `1`. -/
def sampleAssets1 : Nat → Option Nat := fun h => if h = 1 then some 10 else none

/-- An asset collection holding asset data `11` at handle `1`. -/
def sampleAssets2 : Nat → Option Nat := fun h => if h = 1 then some 11 else none

/-- A preparer that succeeds on the first call and asks for a retry on every
later call. -/
def prOkThenRetry : Nat → Nat → Except (PrepareAssetError Nat) Nat × Nat :=
  fun e s => (if s = 0 then .ok (e * 2) else .error (.retryNextUpdate e), s + 1)

/-- A preparer that asks for a retry on the first call and succeeds on every
later call. -/
def prRetryThenOk : Nat → Nat → Except (PrepareAssetError Nat) Nat × Nat :=
  fun e s => (if s = 0 then .error (.retryNextUpdate e) else .ok (e * 2), s + 1)

/-- A preparer that always asks for a retry, handing the asset back
unchanged. -/
def prAlwaysRetry : Nat → Nat → Except (PrepareAssetError Nat) Nat × Nat :=
  fun e s => (.error (.retryNextUpdate e), s)

/-- A preparer that always succeeds, producing `extracted + 100`. -/
def prAlwaysOk : Nat → Nat → Except (PrepareAssetError Nat) Nat × Nat :=
  fun e s => (.ok (e + 100), s)

/-! ### Helper lemmas: the change tracker -/

theorem mem_hsInsert {s : List Nat} {x h : Nat} : x ∈ hsInsert s h ↔ x ∈ s ∨ x = h := by
  unfold hsInsert
  by_cases hm : h ∈ s
  · rw [if_pos hm]
    constructor
    · exact Or.inl
    · rintro (hx | rfl)
      · exact hx
      · exact hm
  · rw [if_neg hm]
    simp

theorem mem_hsRemove {s : List Nat} {x h : Nat} : x ∈ hsRemove s h ↔ x ∈ s ∧ x ≠ h := by
  simp [hsRemove]

theorem hsInsert_nodup {s : List Nat} {h : Nat} (hs : s.Nodup) : (hsInsert s h).Nodup := by
  unfold hsInsert
  by_cases hm : h ∈ s
  · rw [if_pos hm]; exact hs
  · rw [if_neg hm]
    simp [List.nodup_append, hs, hm]

theorem hsRemove_nodup {s : List Nat} {h : Nat} (hs : s.Nodup) : (hsRemove s h).Nodup :=
  hs.filter _

theorem trackStep_removed_mono {acc : List Nat × List Nat} {x : Nat} (ev : AssetEvent)
    (hx : x ∈ acc.2) : x ∈ (trackStep acc ev).2 := by
  cases ev with
  | created h => exact hx
  | modified h => exact hx
  | removed h => exact List.mem_append_left _ hx

theorem foldl_track_removed_mono (l : List AssetEvent) :
    ∀ (acc : List Nat × List Nat) (x : Nat), x ∈ acc.2 →
      x ∈ (List.foldl trackStep acc l).2 := by
  induction l with
  | nil => intro acc x hx; exact hx
  | cons e t ih => intro acc x hx; exact ih _ x (trackStep_removed_mono e hx)

theorem foldl_track_not_changed (l : List AssetEvent) :
    ∀ (acc : List Nat × List Nat) (h : Nat), h ∉ acc.1 →
      (∀ e ∈ l, e ≠ AssetEvent.created h ∧ e ≠ AssetEvent.modified h) →
      h ∉ (List.foldl trackStep acc l).1 := by
  induction l with
  | nil => intro acc h hh _; exact hh
  | cons e t ih =>
    intro acc h hh hl
    apply ih _ h _ (fun x hx => hl x (List.mem_cons_of_mem _ hx))
    obtain ⟨h1, h2⟩ := hl e (List.mem_cons_self _ _)
    cases e with
    | created h' =>
      simp only [trackStep, mem_hsInsert, not_or]
      refine ⟨hh, fun hEq => h1 ?_⟩
      rw [hEq]
    | modified h' =>
      simp only [trackStep, mem_hsInsert, not_or]
      refine ⟨hh, fun hEq => h2 ?_⟩
      rw [hEq]
    | removed h' =>
      simp only [trackStep, mem_hsRemove, not_and]
      intro hc
      exact absurd hc hh

theorem foldl_track_changed_stable (l : List AssetEvent) :
    ∀ (acc : List Nat × List Nat) (h : Nat), h ∈ acc.1 →
      (∀ e ∈ l, e ≠ AssetEvent.removed h) →
      h ∈ (List.foldl trackStep acc l).1 := by
  induction l with
  | nil => intro acc h hh _; exact hh
  | cons e t ih =>
    intro acc h hh hl
    apply ih _ h _ (fun x hx => hl x (List.mem_cons_of_mem _ hx))
    have h1 := hl e (List.mem_cons_self _ _)
    cases e with
    | created h' => exact mem_hsInsert.mpr (Or.inl hh)
    | modified h' => exact mem_hsInsert.mpr (Or.inl hh)
    | removed h' =>
      refine mem_hsRemove.mpr ⟨hh, fun hEq => h1 ?_⟩
      rw [hEq]

theorem foldl_track_changed_nodup (l : List AssetEvent) :
    ∀ acc : List Nat × List Nat, acc.1.Nodup → (List.foldl trackStep acc l).1.Nodup := by
  induction l with
  | nil => intro acc hn; exact hn
  | cons e t ih =>
    intro acc hn
    apply ih
    cases e with
    | created h => exact hsInsert_nodup hn
    | modified h => exact hsInsert_nodup hn
    | removed h => exact hsRemove_nodup hn

theorem trackEvents_changed_nodup (events : List AssetEvent) :
    (trackEvents events).1.Nodup :=
  foldl_track_changed_nodup events ([], []) List.nodup_nil

/-! ### Helper lemmas: extraction -/

theorem mem_extract_fst {α β : Type} {assets : Nat → Option α} {ex : α → β}
    {events : List AssetEvent} {h : Nat} :
    h ∈ (extract_render_asset assets ex events).extracted.map Prod.fst ↔
      h ∈ (trackEvents events).1 ∧ (assets h).isSome := by
  simp only [extract_render_asset, List.mem_map, List.mem_filterMap,
    Option.map_eq_some', Option.isSome_iff_exists]
  constructor
  · rintro ⟨⟨h1, b⟩, ⟨x, hxm, a, hA, hpair⟩, rfl⟩
    injection hpair with e1 e2
    subst e1
    exact ⟨hxm, a, hA⟩
  · rintro ⟨hc, a, ha⟩
    exact ⟨(h, ex a), ⟨h, hc, a, ha, rfl⟩, rfl⟩

theorem extract_fst_sublist {α β : Type} (assets : Nat → Option α) (ex : α → β)
    (l : List Nat) :
    ((l.filterMap (fun h => (assets h).map (fun a => (h, ex a)))).map Prod.fst).Sublist l := by
  induction l with
  | nil => simp
  | cons h t ih =>
    rw [List.filterMap_cons]
    cases hA : assets h with
    | none => exact ih.trans (List.sublist_cons_self h t)
    | some a =>
      simp only [Option.map_some', List.map_cons]
      exact List.Sublist.cons₂ h ih

theorem extract_fst_nodup {α β : Type} (assets : Nat → Option α) (ex : α → β)
    (events : List AssetEvent) :
    ((extract_render_asset assets ex events).extracted.map Prod.fst).Nodup :=
  List.Nodup.sublist (extract_fst_sublist assets ex (trackEvents events).1)
    (trackEvents_changed_nodup events)

/-! ### Helper lemmas: the store -/

theorem lookupA_eq_none {γ : Type} {t : Nat} {m : RenderAssets γ} :
    lookupA t m = none ↔ ∀ p ∈ m, p.1 ≠ t := by
  induction m with
  | nil => simp [lookupA]
  | cons q rest ih =>
    obtain ⟨t', v⟩ := q
    simp only [lookupA, List.mem_cons]
    by_cases hq : t' = t
    · subst hq
      simp
    · rw [if_neg hq, ih]
      constructor
      · intro hall p hp
        rcases hp with rfl | hp
        · exact hq
        · exact hall p hp
      · intro hall p hp
        exact hall p (Or.inr hp)

theorem lookupA_removeA {γ : Type} (t t' : Nat) (m : RenderAssets γ) :
    lookupA t (removeA t' m) = if t' = t then none else lookupA t m := by
  induction m with
  | nil => by_cases hq : t' = t <;> simp [removeA, lookupA, hq]
  | cons q rest ih =>
    obtain ⟨tq, v⟩ := q
    simp only [removeA] at ih ⊢
    by_cases hk : tq = t'
    · rw [List.filter_cons_of_neg (by simp [hk])]
      rw [ih]
      by_cases hq : t' = t
      · rw [if_pos hq, if_pos hq]
      · rw [if_neg hq, if_neg hq]
        simp only [lookupA]
        rw [if_neg (fun hEq => hq (hk.symm.trans hEq))]
    · rw [List.filter_cons_of_pos (by simp [hk])]
      simp only [lookupA]
      by_cases hq2 : tq = t
      · rw [if_pos hq2, if_pos hq2,
          if_neg (fun hEq : t' = t => hk (hq2.trans hEq.symm))]
      · rw [if_neg hq2, if_neg hq2, ih]

theorem lookupA_insertA {γ : Type} (t t' : Nat) (v : γ) (m : RenderAssets γ) :
    lookupA t (insertA t' v m) = if t' = t then some v else lookupA t m := by
  by_cases hq : t' = t
  · simp [insertA, lookupA, hq]
  · simp only [insertA, lookupA, if_neg hq]
    have h2 := lookupA_removeA t t' m
    rw [if_neg hq] at h2
    exact h2

theorem removeA_of_lookup_none {γ : Type} {t : Nat} {m : RenderAssets γ}
    (hm : lookupA t m = none) : removeA t m = m := by
  rw [removeA, List.filter_eq_self]
  intro p hp
  simpa using lookupA_eq_none.mp hm p hp

/-! ### Helper lemmas: `firstSome` and `lastOkValue` -/

theorem firstSome_assoc {γ : Type} (x y z : Option γ) :
    firstSome (firstSome x y) z = firstSome x (firstSome y z) := by
  cases x <;> cases y <;> rfl

theorem firstSome_none_left {γ : Type} (y : Option γ) : firstSome none y = y := rfl

theorem firstSome_none_right {γ : Type} (x : Option γ) : firstSome x none = x := by
  cases x <;> rfl

theorem lastOkValue_nil {β γ : Type} (t : Nat) :
    lastOkValue t ([] : List (PrepareCall β γ)) = none := rfl

theorem lastOkValue_cons {β γ : Type} (t : Nat) (r : PrepareCall β γ)
    (l : List (PrepareCall β γ)) :
    lastOkValue t (r :: l) =
      firstSome (lastOkValue t l)
        (match r with
         | .ok _ _ t' v => if t' = t then some v else none
         | .retry _ _ _ => none) := rfl

/-! ### Helper lemmas: step equations of the prepare phase -/

theorem preparePhase_nil {β γ σ : Type} (mw : Nat → Option Nat)
    (pr : β → σ → Except (PrepareAssetError β) γ × σ) (ra : RenderAssets γ)
    (pend : List (Nat × β)) (p : σ) (log : List (PrepareCall β γ)) :
    preparePhase mw pr [] ra pend p log = some ⟨ra, pend, p, log⟩ := rfl

theorem preparePhase_cons_ok {β γ σ : Type} (mw : Nat → Option Nat)
    (pr : β → σ → Except (PrepareAssetError β) γ × σ) {h : Nat} {e : β}
    {p p' : σ} {v : γ} {t : Nat} {rest : List (Nat × β)} {ra : RenderAssets γ}
    {pend : List (Nat × β)} {log : List (PrepareCall β γ)}
    (hq : pr e p = (Except.ok v, p')) (hmw : mw h = some t) :
    preparePhase mw pr ((h, e) :: rest) ra pend p log =
      preparePhase mw pr rest (insertA t v ra) pend p' (log ++ [.ok h e t v]) := by
  simp only [preparePhase, hq, hmw]

theorem preparePhase_cons_ok_pending {β γ σ : Type} (mw : Nat → Option Nat)
    (pr : β → σ → Except (PrepareAssetError β) γ × σ) {h : Nat} {e : β}
    {p p' : σ} {v : γ} {rest : List (Nat × β)} {ra : RenderAssets γ}
    {pend : List (Nat × β)} {log : List (PrepareCall β γ)}
    (hq : pr e p = (Except.ok v, p')) (hmw : mw h = none) :
    preparePhase mw pr ((h, e) :: rest) ra pend p log = none := by
  simp only [preparePhase, hq, hmw]

theorem preparePhase_cons_retry {β γ σ : Type} (mw : Nat → Option Nat)
    (pr : β → σ → Except (PrepareAssetError β) γ × σ) {h : Nat} {e e' : β}
    {p p' : σ} {rest : List (Nat × β)} {ra : RenderAssets γ}
    {pend : List (Nat × β)} {log : List (PrepareCall β γ)}
    (hq : pr e p = (Except.error (.retryNextUpdate e'), p')) :
    preparePhase mw pr ((h, e) :: rest) ra pend p log =
      preparePhase mw pr rest ra (pend ++ [(h, e')]) p' (log ++ [.retry h e e']) := by
  simp only [preparePhase, hq]

/-! ### Helper lemmas: accumulator shifting and characterizations -/

theorem preparePhase_accum {β γ σ : Type} (mw : Nat → Option Nat)
    (pr : β → σ → Except (PrepareAssetError β) γ × σ) (items : List (Nat × β)) :
    ∀ (ra : RenderAssets γ) (pend : List (Nat × β)) (p : σ)
      (log : List (PrepareCall β γ)),
      preparePhase mw pr items ra pend p log =
        Option.map
          (fun r =>
            ⟨r.render_assets, pend ++ r.prepare_next_frame, r.param, log ++ r.log⟩)
          (preparePhase mw pr items ra [] p []) := by
  induction items with
  | nil => intro ra pend p log; simp [preparePhase_nil]
  | cons it rest ih =>
    intro ra pend p log
    obtain ⟨h, e⟩ := it
    rcases hq : pr e p with ⟨q, p'⟩
    cases q with
    | ok v =>
      cases hmw : mw h with
      | none =>
        rw [preparePhase_cons_ok_pending mw pr hq hmw,
          preparePhase_cons_ok_pending mw pr hq hmw]
        rfl
      | some t =>
        rw [preparePhase_cons_ok mw pr hq hmw, preparePhase_cons_ok mw pr hq hmw,
          ih (insertA t v ra) pend p' (log ++ [PrepareCall.ok h e t v]),
          ih (insertA t v ra) [] p' ([] ++ [PrepareCall.ok h e t v])]
        cases preparePhase mw pr rest (insertA t v ra) [] p' [] with
        | none => rfl
        | some r0 => simp
    | error err =>
      obtain ⟨e'⟩ := err
      rw [preparePhase_cons_retry mw pr hq, preparePhase_cons_retry mw pr hq,
        ih ra (pend ++ [(h, e')]) p' (log ++ [PrepareCall.retry h e e']),
        ih ra ([] ++ [(h, e')]) p' ([] ++ [PrepareCall.retry h e e'])]
      cases preparePhase mw pr rest ra [] p' [] with
      | none => rfl
      | some r0 => simp

theorem lastOkValue_cons_ok {β γ : Type} (tg h : Nat) (e : β) (t : Nat) (v : γ)
    (l : List (PrepareCall β γ)) :
    lastOkValue tg (PrepareCall.ok h e t v :: l) =
      firstSome (lastOkValue tg l) (if t = tg then some v else none) := rfl

theorem lastOkValue_cons_retry {β γ : Type} (tg h : Nat) (e e' : β)
    (l : List (PrepareCall β γ)) :
    lastOkValue tg (PrepareCall.retry h e e' :: l) = lastOkValue tg l := by
  show firstSome (lastOkValue tg l) none = lastOkValue tg l
  exact firstSome_none_right _

theorem preparePhase_log {β γ σ : Type} (mw : Nat → Option Nat)
    (pr : β → σ → Except (PrepareAssetError β) γ × σ) (items : List (Nat × β)) :
    ∀ (ra : RenderAssets γ) (pend : List (Nat × β)) (p : σ)
      (log : List (PrepareCall β γ)) (r : PrepRes β γ σ),
      preparePhase mw pr items ra pend p log = some r →
      r.log.map PrepareCall.input = log.map PrepareCall.input ++ items := by
  induction items with
  | nil =>
    intro ra pend p log r hr
    rw [preparePhase_nil] at hr
    cases hr
    simp
  | cons it rest ih =>
    intro ra pend p log r hr
    obtain ⟨h, e⟩ := it
    rcases hq : pr e p with ⟨q, p'⟩
    cases q with
    | ok v =>
      cases hmw : mw h with
      | none =>
        rw [preparePhase_cons_ok_pending mw pr hq hmw] at hr
        exact Option.noConfusion hr
      | some t =>
        rw [preparePhase_cons_ok mw pr hq hmw] at hr
        have := ih _ _ _ _ _ hr
        rw [this]
        simp [PrepareCall.input]
    | error err =>
      obtain ⟨e'⟩ := err
      rw [preparePhase_cons_retry mw pr hq] at hr
      have := ih _ _ _ _ _ hr
      rw [this]
      simp [PrepareCall.input]

theorem preparePhase_lookup {β γ σ : Type} (mw : Nat → Option Nat)
    (pr : β → σ → Except (PrepareAssetError β) γ × σ) (items : List (Nat × β)) :
    ∀ (ra : RenderAssets γ) (p : σ) (r : PrepRes β γ σ),
      preparePhase mw pr items ra [] p [] = some r →
      ∀ tg : Nat,
        lookupA tg r.render_assets = firstSome (lastOkValue tg r.log) (lookupA tg ra) := by
  induction items with
  | nil =>
    intro ra p r hr tg
    rw [preparePhase_nil] at hr
    cases hr
    simp [lastOkValue_nil, firstSome_none_left]
  | cons it rest ih =>
    intro ra p r hr tg
    obtain ⟨h, e⟩ := it
    rcases hq : pr e p with ⟨q, p'⟩
    cases q with
    | ok v =>
      cases hmw : mw h with
      | none =>
        rw [preparePhase_cons_ok_pending mw pr hq hmw] at hr
        exact Option.noConfusion hr
      | some t =>
        rw [preparePhase_cons_ok mw pr hq hmw, preparePhase_accum] at hr
        cases hb : preparePhase mw pr rest (insertA t v ra) [] p' [] with
        | none => rw [hb] at hr; exact Option.noConfusion hr
        | some r0 =>
          rw [hb] at hr
          cases hr
          show lookupA tg r0.render_assets =
            firstSome (lastOkValue tg (([] : List (PrepareCall β γ)) ++ [PrepareCall.ok h e t v] ++ r0.log))
              (lookupA tg ra)
          rw [List.nil_append, List.singleton_append, lastOkValue_cons_ok, firstSome_assoc,
            ih (insertA t v ra) p' r0 hb tg, lookupA_insertA]
          by_cases hq2 : t = tg
          · rw [if_pos hq2, if_pos hq2]
            rfl
          · rw [if_neg hq2, if_neg hq2]
            rfl
    | error err =>
      obtain ⟨e'⟩ := err
      rw [preparePhase_cons_retry mw pr hq, preparePhase_accum] at hr
      cases hb : preparePhase mw pr rest ra [] p' [] with
      | none => rw [hb] at hr; exact Option.noConfusion hr
      | some r0 =>
        rw [hb] at hr
        cases hr
        show lookupA tg r0.render_assets =
          firstSome (lastOkValue tg (([] : List (PrepareCall β γ)) ++ [PrepareCall.retry h e e'] ++ r0.log))
            (lookupA tg ra)
        rw [List.nil_append, List.singleton_append, lastOkValue_cons_retry,
          ih ra p' r0 hb tg]

theorem preparePhase_preserve {β γ σ : Type} (mw : Nat → Option Nat)
    (pr : β → σ → Except (PrepareAssetError β) γ × σ) (items : List (Nat × β)) :
    ∀ (ra : RenderAssets γ) (pend : List (Nat × β)) (p : σ)
      (log : List (PrepareCall β γ)) (r : PrepRes β γ σ) (tg : Nat),
      preparePhase mw pr items ra pend p log = some r →
      (∀ h' ∈ items.map Prod.fst, mw h' ≠ some tg) →
      lookupA tg r.render_assets = lookupA tg ra := by
  induction items with
  | nil =>
    intro ra pend p log r tg hr _
    rw [preparePhase_nil] at hr
    cases hr
    rfl
  | cons it rest ih =>
    intro ra pend p log r tg hr hno
    obtain ⟨h, e⟩ := it
    rcases hq : pr e p with ⟨q, p'⟩
    cases q with
    | ok v =>
      cases hmw : mw h with
      | none =>
        rw [preparePhase_cons_ok_pending mw pr hq hmw] at hr
        exact Option.noConfusion hr
      | some t =>
        rw [preparePhase_cons_ok mw pr hq hmw] at hr
        have hrest := ih _ _ _ _ _ tg hr
          (fun h' hmem => hno h' (List.mem_cons_of_mem _ hmem))
        rw [hrest, lookupA_insertA]
        have hneq : t ≠ tg := by
          intro hEq
          exact hno h (List.mem_cons_self _ _) (by rw [hmw, hEq])
        rw [if_neg hneq]
    | error err =>
      obtain ⟨e'⟩ := err
      rw [preparePhase_cons_retry mw pr hq] at hr
      exact ih _ _ _ _ _ tg hr (fun h' hmem => hno h' (List.mem_cons_of_mem _ hmem))

theorem preparePhase_pend_sublist {β γ σ : Type} (mw : Nat → Option Nat)
    (pr : β → σ → Except (PrepareAssetError β) γ × σ) (items : List (Nat × β)) :
    ∀ (ra : RenderAssets γ) (pend : List (Nat × β)) (p : σ)
      (log : List (PrepareCall β γ)) (r : PrepRes β γ σ),
      preparePhase mw pr items ra pend p log = some r →
      (r.prepare_next_frame.map Prod.fst).Sublist
        (pend.map Prod.fst ++ items.map Prod.fst) := by
  induction items with
  | nil =>
    intro ra pend p log r hr
    rw [preparePhase_nil] at hr
    cases hr
    simp
  | cons it rest ih =>
    intro ra pend p log r hr
    obtain ⟨h, e⟩ := it
    rcases hq : pr e p with ⟨q, p'⟩
    cases q with
    | ok v =>
      cases hmw : mw h with
      | none =>
        rw [preparePhase_cons_ok_pending mw pr hq hmw] at hr
        exact Option.noConfusion hr
      | some t =>
        rw [preparePhase_cons_ok mw pr hq hmw] at hr
        have hsub := ih _ _ _ _ _ hr
        refine hsub.trans ?_
        simp only [List.map_cons]
        exact List.Sublist.append_left (List.sublist_cons_self _ _) _
    | error err =>
      obtain ⟨e'⟩ := err
      rw [preparePhase_cons_retry mw pr hq] at hr
      have hsub := ih _ _ _ _ _ hr
      simpa [List.append_assoc] using hsub

/-! ### Helper lemmas: the removal phase -/

theorem removalPhase_none_iff {γ : Type} (mw : Nat → Option Nat) (l : List Nat) :
    ∀ ra : RenderAssets γ, removalPhase mw l ra = none ↔ ∃ h ∈ l, mw h = none := by
  induction l with
  | nil => intro ra; simp [removalPhase]
  | cons h rest ih =>
    intro ra
    cases hmw : mw h with
    | none => simp [removalPhase, hmw]
    | some t => simp [removalPhase, hmw, ih]

theorem removalPhase_lookup {γ : Type} (mw : Nat → Option Nat) (l : List Nat) :
    ∀ (ra ra' : RenderAssets γ), removalPhase mw l ra = some ra' →
      ∀ tg : Nat,
        lookupA tg ra' = if ∃ h ∈ l, mw h = some tg then none else lookupA tg ra := by
  induction l with
  | nil =>
    intro ra ra' hr tg
    simp only [removalPhase] at hr
    cases hr
    simp
  | cons h rest ih =>
    intro ra ra' hr tg
    cases hmw : mw h with
    | none => simp [removalPhase, hmw] at hr
    | some t =>
      simp only [removalPhase, hmw] at hr
      have := ih _ _ hr tg
      rw [this]
      by_cases hex : ∃ h' ∈ rest, mw h' = some tg
      · rw [if_pos hex, if_pos (by simp [hex])]
      · rw [if_neg hex, lookupA_removeA]
        by_cases ht : t = tg
        · rw [if_pos ht, if_pos (by exact ⟨h, List.mem_cons_self _ _, by rw [hmw, ht]⟩)]
        · rw [if_neg ht, if_neg ?_]
          simp only [List.mem_cons, not_exists, not_and]
          intro h' hm
          rcases hm with rfl | hm
          · rw [hmw]
            intro hc
            exact ht (Option.some.injEq .. ▸ hc)
          · intro hc
            exact hex ⟨h', hm, hc⟩

theorem removalPhase_isSome {γ : Type} (mw : Nat → Option Nat) (l : List Nat)
    (ra : RenderAssets γ) (hall : ∀ h ∈ l, (mw h).isSome) :
    (removalPhase mw l ra).isSome := by
  rcases hr : removalPhase mw l ra with _ | ra'
  · obtain ⟨h, hm, hn⟩ := (removalPhase_none_iff mw l ra).mp hr
    simpa [hn] using hall h hm
  · rfl

/-! ### Helper lemmas: composing and inverting `prepare_assets` -/

theorem prepare_assets_inv {β γ σ : Type} {mw : Nat → Option Nat}
    {pr : β → σ → Except (PrepareAssetError β) γ × σ} {ext : ExtractedAssets β}
    {ra : RenderAssets γ} {pending : List (Nat × β)} {p : σ} {res : PrepRes β γ σ}
    (hres : prepare_assets mw pr ext ra pending p = some res) :
    ∃ (r1 : PrepRes β γ σ) (ra2 : RenderAssets γ),
      preparePhase mw pr pending ra [] p [] = some r1 ∧
      removalPhase mw ext.removed r1.render_assets = some ra2 ∧
      preparePhase mw pr ext.extracted ra2 r1.prepare_next_frame r1.param r1.log =
        some res := by
  unfold prepare_assets at hres
  rcases Option.bind_eq_some'.mp hres with ⟨r1, h1, hrest⟩
  rcases Option.bind_eq_some'.mp hrest with ⟨ra2, h2, h3⟩
  exact ⟨r1, ra2, h1, h2, h3⟩

theorem prepare_assets_phases {β γ σ : Type} (mw : Nat → Option Nat)
    (pr : β → σ → Except (PrepareAssetError β) γ × σ) (ext : ExtractedAssets β)
    (ra : RenderAssets γ) (pending : List (Nat × β)) (p : σ)
    {r1 : PrepRes β γ σ} {ra2 : RenderAssets γ}
    (h1 : preparePhase mw pr pending ra [] p [] = some r1)
    (h2 : removalPhase mw ext.removed r1.render_assets = some ra2) :
    prepare_assets mw pr ext ra pending p =
      preparePhase mw pr ext.extracted ra2 r1.prepare_next_frame r1.param r1.log := by
  unfold prepare_assets
  rw [h1, Option.some_bind', h2, Option.some_bind']

/-- Every `ok` record a prepare phase appends to the call log carries the
target identity obtained from `map_weak` of its handle. -/
theorem preparePhase_ok_target {β γ σ : Type} (mw : Nat → Option Nat)
    (pr : β → σ → Except (PrepareAssetError β) γ × σ) (items : List (Nat × β)) :
    ∀ (ra : RenderAssets γ) (pend : List (Nat × β)) (p : σ)
      (log : List (PrepareCall β γ)) (r : PrepRes β γ σ),
      preparePhase mw pr items ra pend p log = some r →
      ∀ (h' : Nat) (e' : β) (t' : Nat) (v' : γ),
        PrepareCall.ok h' e' t' v' ∈ r.log →
        PrepareCall.ok h' e' t' v' ∈ log ∨ mw h' = some t' := by
  induction items with
  | nil =>
    intro ra pend p log r hr h' e' t' v' hmem
    rw [preparePhase_nil] at hr
    cases hr
    exact Or.inl hmem
  | cons it rest ih =>
    intro ra pend p log r hr h' e' t' v' hmem
    obtain ⟨h, e⟩ := it
    rcases hq : pr e p with ⟨q, p'⟩
    cases q with
    | ok v =>
      cases hmw : mw h with
      | none =>
        rw [preparePhase_cons_ok_pending mw pr hq hmw] at hr
        exact Option.noConfusion hr
      | some t0 =>
        rw [preparePhase_cons_ok mw pr hq hmw] at hr
        rcases ih _ _ _ _ _ hr h' e' t' v' hmem with hin | hres
        · rcases List.mem_append.mp hin with hin2 | hin2
          · exact Or.inl hin2
          · rw [List.mem_singleton] at hin2
            injection hin2 with eh ee et ev
            subst eh
            subst et
            exact Or.inr hmw
        · exact Or.inr hres
    | error err =>
      obtain ⟨e2⟩ := err
      rw [preparePhase_cons_retry mw pr hq] at hr
      rcases ih _ _ _ _ _ hr h' e' t' v' hmem with hin | hres
      · rcases List.mem_append.mp hin with hin2 | hin2
        · exact Or.inl hin2
        · rw [List.mem_singleton] at hin2
          exact PrepareCall.noConfusion hin2
      · exact Or.inr hres

/-- Last-write characterization of a full `prepare_assets` invocation in
terms of its three phases (`r1` retry phase, `ra2` removal phase, `r3`
new-asset phase with its call log isolated): the invocation returns `r3`'s
state with the concatenated log, and the final store at any target `tg` is
the last Ok of the new phase at `tg`, else `none` if `tg` was erased by the
removal phase, else the last Ok of the retry phase at `tg`, else the entry
the store had at the start of the cycle. -/
theorem prepare_assets_char {β γ σ : Type} (mw : Nat → Option Nat)
    (pr : β → σ → Except (PrepareAssetError β) γ × σ) (ext : ExtractedAssets β)
    (ra : RenderAssets γ) (pending : List (Nat × β)) (p : σ)
    (r1 : PrepRes β γ σ) (ra2 : RenderAssets γ) (r3 : PrepRes β γ σ)
    (h1 : preparePhase mw pr pending ra [] p [] = some r1)
    (h2 : removalPhase mw ext.removed r1.render_assets = some ra2)
    (h3 : preparePhase mw pr ext.extracted ra2 r1.prepare_next_frame r1.param []
      = some r3) :
    prepare_assets mw pr ext ra pending p =
      some ⟨r3.render_assets, r3.prepare_next_frame, r3.param,
        r1.log ++ r3.log⟩ ∧
    ∀ tg : Nat,
      lookupA tg r3.render_assets =
        firstSome (lastOkValue tg r3.log)
          (if ∃ h ∈ ext.removed, mw h = some tg then none
           else firstSome (lastOkValue tg r1.log) (lookupA tg ra)) := by
  rw [preparePhase_accum] at h3
  cases hb : preparePhase mw pr ext.extracted ra2 [] r1.param [] with
  | none =>
    rw [hb] at h3
    exact Option.noConfusion h3
  | some r0 =>
    rw [hb, Option.map_some'] at h3
    injection h3 with h3e
    subst h3e
    constructor
    · rw [prepare_assets_phases mw pr ext ra pending p h1 h2,
        preparePhase_accum, hb, Option.map_some']
      simp
    · intro tg
      have hch3 := preparePhase_lookup mw pr ext.extracted ra2 r1.param r0 hb tg
      have hrm := removalPhase_lookup mw ext.removed r1.render_assets ra2 h2 tg
      have hch1 := preparePhase_lookup mw pr pending ra p r1 h1 tg
      dsimp only
      rw [List.nil_append, hch3, hrm, hch1]

/-! ### Claims -/

/-- C1 (amended): for every event sequence of one cycle, a handle that
receives a Created or Modified event and a later Removed event — with no
further Created or Modified event for that handle after that Removed event —
appears in the removed list, never in the changed set, and no extraction is
attempted for it.  (The amendment excludes a re-creation after the Removed
event; see the counterexample.) -/
theorem c1_created_then_removed_only_removed
    {l1 l2 l3 : List AssetEvent} {cm : AssetEvent} {h : Nat}
    (_hcm : cm = AssetEvent.created h ∨ cm = AssetEvent.modified h)
    (hl3 : ∀ e ∈ l3, e ≠ AssetEvent.created h ∧ e ≠ AssetEvent.modified h)
    {events : List AssetEvent}
    (hev : events = l1 ++ cm :: l2 ++ AssetEvent.removed h :: l3) :
    h ∈ (trackEvents events).2 ∧ h ∉ (trackEvents events).1 ∧
      ∀ {α β : Type} (assets : Nat → Option α) (ex : α → β),
        h ∉ (extract_render_asset assets ex events).extracted.map Prod.fst := by
  subst hev
  have hsplit : l1 ++ cm :: l2 ++ AssetEvent.removed h :: l3
      = ((l1 ++ cm :: l2) ++ [AssetEvent.removed h]) ++ l3 := by simp
  have hmid : ∀ acc0 : List Nat × List Nat,
      List.foldl trackStep acc0 [AssetEvent.removed h]
        = (hsRemove acc0.1 h, acc0.2 ++ [h]) := by
    intro acc0
    simp [trackStep]
  have h2 : h ∉ (trackEvents (l1 ++ cm :: l2 ++ AssetEvent.removed h :: l3)).1 := by
    rw [trackEvents, hsplit, List.foldl_append]
    apply foldl_track_not_changed l3 _ h _ hl3
    rw [List.foldl_append, hmid]
    rw [mem_hsRemove]
    simp
  have h1 : h ∈ (trackEvents (l1 ++ cm :: l2 ++ AssetEvent.removed h :: l3)).2 := by
    rw [trackEvents, hsplit, List.foldl_append]
    apply foldl_track_removed_mono
    rw [List.foldl_append, hmid]
    simp
  refine ⟨h1, h2, ?_⟩
  intro α β assets ex hmem
  exact h2 (mem_extract_fst.mp hmem).1

/-- C1 counterexample: with events Created(1), Removed(1), Created(1), handle
`1` has a Created event and a later Removed event in the same cycle, yet it
ends up in the changed set, it is extracted (the asset is present), and so
the claim as stated — "appears only in the removed list, never in the changed
set, and no extraction is attempted" — is false on the code. -/
theorem c1_counterexample :
    1 ∈ (trackEvents
      [AssetEvent.created 1, AssetEvent.removed 1, AssetEvent.created 1]).1 ∧
    1 ∈ (trackEvents
      [AssetEvent.created 1, AssetEvent.removed 1, AssetEvent.created 1]).2 ∧
    1 ∈ (extract_render_asset sampleAssets1 (fun a => a)
      [AssetEvent.created 1, AssetEvent.removed 1,
        AssetEvent.created 1]).extracted.map Prod.fst := by
  decide

/-- Witness for `c1_created_then_removed_only_removed` at the concrete cycle
Created(1), Removed(1). -/
theorem c1_witness :
    1 ∈ (trackEvents [AssetEvent.created 1, AssetEvent.removed 1]).2 ∧
    1 ∉ (trackEvents [AssetEvent.created 1, AssetEvent.removed 1]).1 ∧
    1 ∉ (extract_render_asset sampleAssets1 (fun a => a)
      [AssetEvent.created 1, AssetEvent.removed 1]).extracted.map Prod.fst := by
  have hc := @c1_created_then_removed_only_removed [] [] [] (AssetEvent.created 1) 1
    (Or.inl rfl) (by simp) _ rfl
  exact ⟨hc.1, hc.2.1, hc.2.2 sampleAssets1 (fun a => a)⟩

/-- C8: for every handle whose source data lookup (`assets.get`) returns
nothing at extraction time, `extract_render_asset` produces no extracted
entry for that handle; extraction is total, so no error is raised — the
handle is silently skipped. -/
theorem c8_missing_asset_skipped {α β : Type} (assets : Nat → Option α)
    (ex : α → β) (events : List AssetEvent) (h : Nat)
    (hnone : assets h = none) :
    h ∉ (extract_render_asset assets ex events).extracted.map Prod.fst := by
  intro hmem
  have hs := (mem_extract_fst.mp hmem).2
  rw [hnone] at hs
  simp at hs

/-- Witness for `c8_missing_asset_skipped`: handle `2` is changed (Created)
but absent from the asset collection, and is skipped. -/
theorem c8_witness :
    2 ∉ (extract_render_asset sampleAssets1 (fun a => a)
      [AssetEvent.created 2]).extracted.map Prod.fst :=
  c8_missing_asset_skipped sampleAssets1 (fun a => a) [AssetEvent.created 2] 2 rfl

/-- C10 (amended): a handle that receives a Removed event followed by a later
Created or Modified event — with no further Removed event for that handle
afterwards — is reported by `extract_render_asset` in both the changed set
and the removed list; and because `prepare_assets` runs the removal phase
before preparing newly extracted items, whenever the cycle's new-asset phase
prepares an item of that handle Ok — recorded in the call log as
`ok h e t v`, which forces `t` to be the handle's mapped target identity —
and `v` is the last value Ok-prepared at target `t` in that phase (automatic
when no other same-cycle preparation shares the target, as with the source's
id-preserving `map_weak`), the cycle succeeds and the store ends it with the
freshly prepared entry `v` at the handle's target identity `t`. -/
theorem c10_removed_then_recreated
    {l1 l2 l3 : List AssetEvent} {cm : AssetEvent} {h : Nat}
    (hcm : cm = AssetEvent.created h ∨ cm = AssetEvent.modified h)
    (hl3 : ∀ e ∈ l3, e ≠ AssetEvent.removed h)
    {events : List AssetEvent}
    (hev : events = l1 ++ AssetEvent.removed h :: l2 ++ cm :: l3)
    {α β γ σ : Type} (mw : Nat → Option Nat)
    (pr : β → σ → Except (PrepareAssetError β) γ × σ)
    (assets : Nat → Option α) (ex : α → β) (st : PipelineState β γ σ)
    (r1 : PrepRes β γ σ) (ra2 : RenderAssets γ) (r3 : PrepRes β γ σ)
    (h1 : preparePhase mw pr st.prepare_next_frame st.render_assets []
      st.param [] = some r1)
    (h2 : removalPhase mw (extract_render_asset assets ex events).removed
      r1.render_assets = some ra2)
    (h3 : preparePhase mw pr (extract_render_asset assets ex events).extracted
      ra2 r1.prepare_next_frame r1.param [] = some r3)
    {e : β} {t : Nat} {v : γ}
    (hrec : PrepareCall.ok h e t v ∈ r3.log)
    (hlast : lastOkValue t r3.log = some v) :
    (h ∈ (trackEvents events).1 ∧ h ∈ (trackEvents events).2) ∧
    mw h = some t ∧
    runCycle mw pr assets ex events st =
      some (⟨r3.render_assets, r3.prepare_next_frame, r3.param⟩,
        r1.log ++ r3.log) ∧
    lookupA t r3.render_assets = some v := by
  subst hev
  have hpa := prepare_assets_char mw pr
    (extract_render_asset assets ex
      (l1 ++ AssetEvent.removed h :: l2 ++ cm :: l3))
    st.render_assets st.prepare_next_frame st.param r1 ra2 r3 h1 h2 h3
  have hmwh : mw h = some t := by
    rcases preparePhase_ok_target mw pr
      (extract_render_asset assets ex
        (l1 ++ AssetEvent.removed h :: l2 ++ cm :: l3)).extracted
      ra2 r1.prepare_next_frame r1.param [] r3 h3 h e t v hrec with hin | hres
    · exact absurd hin (List.not_mem_nil _)
    · exact hres
  refine ⟨⟨?_, ?_⟩, hmwh, ?_, ?_⟩
  · have hsplit : l1 ++ AssetEvent.removed h :: l2 ++ cm :: l3
        = ((l1 ++ AssetEvent.removed h :: l2) ++ [cm]) ++ l3 := by simp
    rw [trackEvents, hsplit, List.foldl_append]
    apply foldl_track_changed_stable l3 _ h _ hl3
    rw [List.foldl_append]
    rcases hcm with rfl | rfl
    · simp only [List.foldl_cons, List.foldl_nil, trackStep]
      exact mem_hsInsert.mpr (Or.inr rfl)
    · simp only [List.foldl_cons, List.foldl_nil, trackStep]
      exact mem_hsInsert.mpr (Or.inr rfl)
  · have hsplit : l1 ++ AssetEvent.removed h :: l2 ++ cm :: l3
        = (l1 ++ [AssetEvent.removed h]) ++ (l2 ++ cm :: l3) := by simp
    rw [trackEvents, hsplit, List.foldl_append]
    apply foldl_track_removed_mono
    rw [List.foldl_append]
    simp [trackStep]
  · unfold runCycle
    rw [hpa.1, Option.map_some']
  · rw [hpa.2 t, hlast]
    rfl

/-- C10 counterexample: with events Removed(1), Created(1), Removed(1),
handle `1` has a Removed event followed by a later Created event, yet it is
not in the changed set, so the claim as stated — the handle appears in both
the changed set and the removed list — is false on the code. -/
theorem c10_counterexample :
    1 ∉ (trackEvents
      [AssetEvent.removed 1, AssetEvent.created 1, AssetEvent.removed 1]).1 := by
  decide

/-- Witness for `c10_removed_then_recreated` at the concrete cycle
Removed(1), Created(1) with an always-Ok preparer: the re-created handle is
in both lists, its target identity is `1`, the cycle succeeds, and the store
ends the cycle with the freshly prepared entry at target `1`. -/
theorem c10_witness :
    (1 ∈ (trackEvents [AssetEvent.removed 1, AssetEvent.created 1]).1 ∧
      1 ∈ (trackEvents [AssetEvent.removed 1, AssetEvent.created 1]).2) ∧
    mwId 1 = some 1 ∧
    runCycle mwId prAlwaysOk sampleAssets1 (fun a => a)
      [AssetEvent.removed 1, AssetEvent.created 1] ⟨[(1, 99)], [], 0⟩ =
      some (⟨[(1, 110)], [], 0⟩, [] ++ [PrepareCall.ok 1 10 1 110]) ∧
    lookupA 1 ([(1, 110)] : RenderAssets Nat) = some 110 :=
  @c10_removed_then_recreated [] [] [] (AssetEvent.created 1) 1 (Or.inl rfl)
    (by simp) _ rfl Nat Nat Nat Nat mwId prAlwaysOk sampleAssets1 (fun a => a)
    ⟨[(1, 99)], [], 0⟩ ⟨[(1, 99)], [], 0, []⟩ []
    ⟨[(1, 110)], [], 0, [PrepareCall.ok 1 10 1 110]⟩
    (by decide) (by decide) (by decide) 10 1 110 (by decide) (by decide)

/-- C2: in every successful invocation of `prepare_assets`, the sequence of
`(handle, extracted_asset)` pairs passed to `prepare_asset_into` is exactly
the retry queue as of the start of the cycle followed by the freshly
extracted items: every queued item is processed exactly once, and before any
fresh item. -/
theorem c2_retry_queue_first {β γ σ : Type} (mw : Nat → Option Nat)
    (pr : β → σ → Except (PrepareAssetError β) γ × σ) (ext : ExtractedAssets β)
    (ra : RenderAssets γ) (pending : List (Nat × β)) (p : σ)
    (res : PrepRes β γ σ)
    (hres : prepare_assets mw pr ext ra pending p = some res) :
    res.log.map PrepareCall.input = pending ++ ext.extracted := by
  obtain ⟨r1, ra2, h1, h2, h3⟩ := prepare_assets_inv hres
  have hl1 := preparePhase_log mw pr pending ra [] p [] r1 h1
  have hl3 := preparePhase_log mw pr ext.extracted ra2 r1.prepare_next_frame
    r1.param r1.log res h3
  rw [hl3, hl1]
  simp

/-- Witness for `c2_retry_queue_first`: a cycle with one queued item
`(2, 20)` and one freshly extracted item `(1, 10)`. -/
theorem c2_witness :
    prepare_assets mwId prAlwaysOk ⟨[(1, 10)], []⟩ [] [(2, 20)] 0 =
      some ⟨[(1, 110), (2, 120)], [], 0,
        [PrepareCall.ok 2 20 2 120, PrepareCall.ok 1 10 1 110]⟩ ∧
    ([PrepareCall.ok 2 20 2 120,
        PrepareCall.ok 1 10 1 110].map PrepareCall.input : List (Nat × Nat)) =
      [(2, 20)] ++ [(1, 10)] := by
  constructor
  · decide
  · exact c2_retry_queue_first mwId prAlwaysOk ⟨[(1, 10)], []⟩ [] [(2, 20)] 0
      ⟨[(1, 110), (2, 120)], [], 0,
        [PrepareCall.ok 2 20 2 120, PrepareCall.ok 1 10 1 110]⟩ (by decide)

/-- C7: whenever `prepare_assets` must derive a target identity from a handle
and `map_weak` fails because the handle is pending, the system panics —
modelled as the whole invocation returning `none` — and never continues with
a recoverable outcome.  Conjunct 1: the removal phase panics exactly when
some removed handle is pending.  Conjunct 2: an Ok preparation of an item
whose handle is pending panics immediately.  Conjunct 3: the panic of the
removal phase aborts the whole `prepare_assets` invocation. -/
theorem c7_pending_handle_panics :
    (∀ (γ : Type) (mw : Nat → Option Nat) (l : List Nat) (ra : RenderAssets γ),
      removalPhase mw l ra = none ↔ ∃ h ∈ l, mw h = none) ∧
    (∀ (β γ σ : Type) (mw : Nat → Option Nat)
      (pr : β → σ → Except (PrepareAssetError β) γ × σ)
      (h : Nat) (e : β) (p p' : σ) (v : γ) (rest : List (Nat × β))
      (ra : RenderAssets γ) (pend : List (Nat × β))
      (log : List (PrepareCall β γ)),
      pr e p = (Except.ok v, p') → mw h = none →
      preparePhase mw pr ((h, e) :: rest) ra pend p log = none) ∧
    (∀ (β γ σ : Type) (mw : Nat → Option Nat)
      (pr : β → σ → Except (PrepareAssetError β) γ × σ)
      (ext : ExtractedAssets β) (ra : RenderAssets γ)
      (pending : List (Nat × β)) (p : σ) (r1 : PrepRes β γ σ),
      preparePhase mw pr pending ra [] p [] = some r1 →
      (∃ h ∈ ext.removed, mw h = none) →
      prepare_assets mw pr ext ra pending p = none) := by
  refine ⟨fun γ mw l ra => removalPhase_none_iff mw l ra,
    fun β γ σ mw pr h e p p' v rest ra pend log hq hmw =>
      preparePhase_cons_ok_pending mw pr hq hmw,
    fun β γ σ mw pr ext ra pending p r1 h1 hex => ?_⟩
  unfold prepare_assets
  rw [h1, Option.some_bind', (removalPhase_none_iff mw ext.removed
    r1.render_assets).mpr hex]
  rfl

/-- Witness for `c7_pending_handle_panics`: a pending handle (`map_weak`
returns failure) makes the removal phase, the prepare phase and the whole
`prepare_assets` return `none`. -/
theorem c7_witness :
    removalPhase (fun _ => none) [5] ([(5, 0)] : RenderAssets Nat) = none ∧
    preparePhase (fun _ => none) prAlwaysOk [(5, 7)] ([] : RenderAssets Nat)
      [] 0 [] = none ∧
    prepare_assets (fun _ => none) prAlwaysOk
      (⟨[], [5]⟩ : ExtractedAssets Nat) ([] : RenderAssets Nat) [] 0 = none :=
  ⟨(c7_pending_handle_panics.1 Nat (fun _ => none) [5] [(5, 0)]).mpr
      ⟨5, List.mem_singleton_self 5, rfl⟩,
    c7_pending_handle_panics.2.1 Nat Nat Nat (fun _ => none) prAlwaysOk
      5 7 0 0 107 [] [] [] [] rfl rfl,
    c7_pending_handle_panics.2.2 Nat Nat Nat (fun _ => none) prAlwaysOk
      ⟨[], [5]⟩ [] [] 0 ⟨[], [], 0, []⟩ rfl ⟨5, List.mem_singleton_self 5, rfl⟩⟩

/-- C3: an item on which `prepare_asset_into` returns Retry is re-queued —
the extracted representation carried by the Retry, paired with its handle —
and nothing is inserted into the store for it (conjunct 1: the prepare loop
passes the store through unchanged and appends `(handle, returned asset)` to
the queue).  Conjuncts 2 and 3: for an asset created in cycle 1 whose
preparation returns Retry in cycle 1 and Ok in cycle 2, the store has no
entry for it after cycle 1 (while the queue holds it) and has the entry
after cycle 2. -/
theorem c3_retry_requeues_same_rep :
    (∀ (β γ σ : Type) (mw : Nat → Option Nat)
      (pr : β → σ → Except (PrepareAssetError β) γ × σ)
      (h : Nat) (e e' : β) (p p' : σ) (rest : List (Nat × β))
      (ra : RenderAssets γ) (pend : List (Nat × β))
      (log : List (PrepareCall β γ)),
      pr e p = (Except.error (.retryNextUpdate e'), p') →
      preparePhase mw pr ((h, e) :: rest) ra pend p log =
        preparePhase mw pr rest ra (pend ++ [(h, e')]) p'
          (log ++ [.retry h e e'])) ∧
    ((runCycle mwId prRetryThenOk sampleAssets1 (fun a => a)
        [AssetEvent.created 1] ⟨[], [], 0⟩).map
      (fun x => (lookupA 1 x.1.render_assets, x.1.prepare_next_frame)) =
        some (none, [(1, 10)])) ∧
    (((runCycle mwId prRetryThenOk sampleAssets1 (fun a => a)
        [AssetEvent.created 1] ⟨[], [], 0⟩).bind
      (fun x => runCycle mwId prRetryThenOk (fun _ => none) (fun a => a)
        [] x.1)).map
      (fun x => (lookupA 1 x.1.render_assets, x.1.prepare_next_frame)) =
        some (some 20, [])) := by
  exact ⟨fun β γ σ mw pr h e e' p p' rest ra pend log hq =>
    preparePhase_cons_retry mw pr hq, by decide, by decide⟩

/-- Witness for `c3_retry_requeues_same_rep` at a concrete Retry step. -/
theorem c3_witness :
    preparePhase mwId prAlwaysRetry [(1, 10)] ([] : RenderAssets Nat)
      [] 0 [] =
    preparePhase mwId prAlwaysRetry [] ([] : RenderAssets Nat)
      ([] ++ [(1, 10)]) 0 ([] ++ [PrepareCall.retry 1 10 10]) :=
  c3_retry_requeues_same_rep.1 Nat Nat Nat mwId prAlwaysRetry
    1 10 10 0 0 [] [] [] [] rfl

/-- C9: the removal phase is idempotent — when every removed handle has a
resolvable target identity, a second run of the removal phase on the same
list succeeds and leaves the store (as a map) exactly as after the first
run — and erasing a target identity with no store entry is a no-op. -/
theorem c9_removal_idempotent :
    (∀ (γ : Type) (mw : Nat → Option Nat) (l : List Nat)
      (ra ra' : RenderAssets γ),
      (∀ h ∈ l, (mw h).isSome) → removalPhase mw l ra = some ra' →
      ∃ ra'', removalPhase mw l ra' = some ra'' ∧
        ∀ tg, lookupA tg ra'' = lookupA tg ra') ∧
    (∀ (γ : Type) (t : Nat) (m : RenderAssets γ),
      lookupA t m = none → removeA t m = m) := by
  refine ⟨fun γ mw l ra ra' hall hr => ?_,
    fun γ t m hm => removeA_of_lookup_none hm⟩
  obtain ⟨ra'', hr2⟩ :=
    Option.isSome_iff_exists.mp (removalPhase_isSome mw l ra' hall)
  refine ⟨ra'', hr2, fun tg => ?_⟩
  have hchar1 := removalPhase_lookup mw l ra ra' hr tg
  have hchar2 := removalPhase_lookup mw l ra' ra'' hr2 tg
  rw [hchar2]
  by_cases hex : ∃ h ∈ l, mw h = some tg
  · rw [if_pos hex, hchar1, if_pos hex]
  · rw [if_neg hex]

/-- Witness for `c9_removal_idempotent`: re-running the removal of handles
`1, 2` on the already-erased store changes nothing, and erasing absent key
`5` is a no-op. -/
theorem c9_witness :
    (∃ ra'', removalPhase mwId [1, 2] ([(3, 30)] : RenderAssets Nat) = some ra'' ∧
      ∀ tg, lookupA tg ra'' = lookupA tg ([(3, 30)] : RenderAssets Nat)) ∧
    removeA 5 ([(1, 10)] : RenderAssets Nat) = [(1, 10)] :=
  ⟨c9_removal_idempotent.1 Nat mwId [1, 2] [(1, 10), (3, 30)] [(3, 30)]
      (by decide) (by decide),
    c9_removal_idempotent.2 Nat 5 [(1, 10)] rfl⟩

/-- C4 (amended): after one full invocation of `prepare_assets`, for every
handle in the cycle's removed list whose mapped target identity is not the
mapped target identity of any handle extracted in the same cycle, the store
contains no entry at that target identity.  (The amendment excludes a handle
removed and re-extracted in the same cycle, whose fresh preparation re-inserts
the entry after the removal phase; see the counterexample.) -/
theorem c4_removed_absent_unless_reextracted {β γ σ : Type}
    (mw : Nat → Option Nat) (pr : β → σ → Except (PrepareAssetError β) γ × σ)
    (ext : ExtractedAssets β) (ra : RenderAssets γ) (pending : List (Nat × β))
    (p : σ) (res : PrepRes β γ σ) (h t : Nat)
    (hres : prepare_assets mw pr ext ra pending p = some res)
    (hmem : h ∈ ext.removed) (hmw : mw h = some t)
    (hnot : ∀ h' ∈ ext.extracted.map Prod.fst, mw h' ≠ some t) :
    lookupA t res.render_assets = none := by
  obtain ⟨r1, ra2, h1, h2, h3⟩ := prepare_assets_inv hres
  have hrm := removalPhase_lookup mw ext.removed r1.render_assets ra2 h2 t
  rw [if_pos ⟨h, hmem, hmw⟩] at hrm
  have hpres := preparePhase_preserve mw pr ext.extracted ra2
    r1.prepare_next_frame r1.param r1.log res t h3 hnot
  rw [hpres, hrm]

/-- C4 counterexample: events Removed(1), Created(1) in one cycle.  Handle
`1` is in the removed list and its target identity is `1`, yet after the
full `prepare_assets` cycle the store holds the freshly prepared entry at
target `1` — the claim as stated (no entry at any removed handle's target) is
false on the code. -/
theorem c4_counterexample :
    (runCycle mwId prAlwaysOk sampleAssets1 (fun a => a)
        [AssetEvent.removed 1, AssetEvent.created 1] ⟨[(1, 99)], [], 0⟩).map
      (fun x => lookupA 1 x.1.render_assets) = some (some 110) ∧
    1 ∈ (extract_render_asset sampleAssets1 (fun a : Nat => a)
      [AssetEvent.removed 1, AssetEvent.created 1]).removed ∧
    mwId 1 = some 1 := by
  decide

/-- Witness for `c4_removed_absent_unless_reextracted`: handle `1` removed,
only handle `2` extracted, store ends with no entry at target `1`. -/
theorem c4_witness :
    prepare_assets mwId prAlwaysOk (⟨[(2, 20)], [1]⟩ : ExtractedAssets Nat)
      [(1, 99)] [] 0 =
      some ⟨[(2, 120)], [], 0, [PrepareCall.ok 2 20 2 120]⟩ ∧
    lookupA 1 ([(2, 120)] : RenderAssets Nat) = none :=
  ⟨by decide,
    c4_removed_absent_unless_reextracted mwId prAlwaysOk ⟨[(2, 20)], [1]⟩
      [(1, 99)] [] 0 ⟨[(2, 120)], [], 0, [PrepareCall.ok 2 20 2 120]⟩ 1 1
      (by decide) (by decide) rfl (by decide)⟩

/-- C5 (amended): last-write characterization of the store.  After a
successful `prepare_assets` cycle whose phases produce `r1` (retry phase),
`ra2` (removal phase) and `r3` (new-asset phase, call log isolated), the
invocation returns `r3`'s state with the concatenated log, and the store
contains an entry at target `tg` iff the new phase Ok-prepared an item with
target `tg` (last such wins), or `tg` was not erased by the removal phase
and (the retry phase Ok-prepared an item with target `tg`, or the entry was
already present at the start of the cycle).  In particular a Retry outcome
never touches the store: an already-prepared, re-extracted asset whose
preparation returns Retry keeps its old entry while being re-queued (the
claim's "no longer holds an entry" direction is refuted by the
counterexample). -/
theorem c5_store_characterization {β γ σ : Type} (mw : Nat → Option Nat)
    (pr : β → σ → Except (PrepareAssetError β) γ × σ) (ext : ExtractedAssets β)
    (ra : RenderAssets γ) (pending : List (Nat × β)) (p : σ)
    (r1 : PrepRes β γ σ) (ra2 : RenderAssets γ) (r3 : PrepRes β γ σ)
    (h1 : preparePhase mw pr pending ra [] p [] = some r1)
    (h2 : removalPhase mw ext.removed r1.render_assets = some ra2)
    (h3 : preparePhase mw pr ext.extracted ra2 r1.prepare_next_frame r1.param []
      = some r3) :
    prepare_assets mw pr ext ra pending p =
      some ⟨r3.render_assets, r3.prepare_next_frame, r3.param,
        r1.log ++ r3.log⟩ ∧
    ∀ tg : Nat,
      lookupA tg r3.render_assets =
        firstSome (lastOkValue tg r3.log)
          (if ∃ h ∈ ext.removed, mw h = some tg then none
           else firstSome (lastOkValue tg r1.log) (lookupA tg ra)) :=
  prepare_assets_char mw pr ext ra pending p r1 ra2 r3 h1 h2 h3

/-- C5 counterexample: handle `1` is prepared Ok in cycle 1; in cycle 2 it is
re-extracted (Modified) and preparation returns Retry.  After cycle 2 the
handle is re-queued for retry (`[(1, 11)]`) yet the store still holds its
prepared entry (`some 20`) — so "the store contains an entry iff ... not
since re-queued for retry" and "once ... Retry, the store no longer holds an
entry" are false on the code. -/
theorem c5_counterexample :
    ((runCycle mwId prOkThenRetry sampleAssets1 (fun a => a)
        [AssetEvent.created 1] ⟨[], [], 0⟩).bind
      (fun x => runCycle mwId prOkThenRetry sampleAssets2 (fun a => a)
        [AssetEvent.modified 1] x.1)).map
      (fun x => (lookupA 1 x.1.render_assets, x.1.prepare_next_frame)) =
    some (some 20, [(1, 11)]) := by
  decide

/-- Witness for `c5_store_characterization` at cycle 2 of the counterexample
scenario: the phases are concrete and the characterization evaluates to
`some 20` at target `1`. -/
theorem c5_witness :
    prepare_assets mwId prOkThenRetry (⟨[(1, 11)], []⟩ : ExtractedAssets Nat)
      [(1, 20)] [] 1 =
      some ⟨[(1, 20)], [(1, 11)], 2, [PrepareCall.retry 1 11 11]⟩ ∧
    lookupA 1 ([(1, 20)] : RenderAssets Nat) = some 20 := by
  have hc := c5_store_characterization mwId prOkThenRetry ⟨[(1, 11)], []⟩
    [(1, 20)] [] 1 ⟨[(1, 20)], [], 1, []⟩ [(1, 20)]
    ⟨[(1, 20)], [(1, 11)], 2, [PrepareCall.retry 1 11 11]⟩
    (by decide) (by decide) (by decide)
  exact ⟨hc.1, (hc.2 1).trans (by decide)⟩

/-- C6 (amended): at a cycle boundary each handle appears in the retry queue
at most once, provided no freshly extracted handle of the cycle was already
sitting in the retry queue at the cycle's start.  (Without the proviso a
handle can be queued twice — once carried over and once freshly extracted,
both returning Retry; see the counterexample.) -/
theorem c6_pending_unique {α β γ σ : Type} (mw : Nat → Option Nat)
    (pr : β → σ → Except (PrepareAssetError β) γ × σ)
    (assets : Nat → Option α) (ex : α → β) (events : List AssetEvent)
    (st st' : PipelineState β γ σ) (lg : List (PrepareCall β γ))
    (hrun : runCycle mw pr assets ex events st = some (st', lg))
    (hn : (st.prepare_next_frame.map Prod.fst).Nodup)
    (hdisj : ∀ h ∈ (extract_render_asset assets ex events).extracted.map Prod.fst,
      h ∉ st.prepare_next_frame.map Prod.fst) :
    (st'.prepare_next_frame.map Prod.fst).Nodup := by
  unfold runCycle at hrun
  rcases Option.map_eq_some'.mp hrun with ⟨res, hres, heq⟩
  obtain ⟨r1, ra2, h1, h2, h3⟩ := prepare_assets_inv hres
  have hs1 := preparePhase_pend_sublist mw pr st.prepare_next_frame
    st.render_assets [] st.param [] r1 h1
  have hs3 := preparePhase_pend_sublist mw pr
    (extract_render_asset assets ex events).extracted ra2
    r1.prepare_next_frame r1.param r1.log res h3
  have hnodup : (st.prepare_next_frame.map Prod.fst ++
      (extract_render_asset assets ex events).extracted.map Prod.fst).Nodup := by
    rw [List.nodup_append]
    exact ⟨hn, extract_fst_nodup assets ex events, fun a ha hb => hdisj a hb ha⟩
  obtain ⟨he1, he2⟩ := Prod.ext_iff.mp heq
  dsimp only at he1
  rw [← he1]
  refine List.Nodup.sublist ?_ hnodup
  refine hs3.trans ?_
  refine List.Sublist.append ?_ (List.Sublist.refl _)
  simpa using hs1

/-- C6 counterexample: handle `1` is created in cycle 1 and its preparation
returns Retry, so it is carried in the retry queue; in cycle 2 it is also
Modified (freshly extracted) and both preparations return Retry — the retry
queue then holds handle `1` twice at the cycle boundary, so the claim as
stated (at most once for every behaviour) is false on the code. -/
theorem c6_counterexample :
    ((runCycle mwId prAlwaysRetry sampleAssets1 (fun a => a)
        [AssetEvent.created 1] ⟨[], [], 0⟩).bind
      (fun x => runCycle mwId prAlwaysRetry sampleAssets2 (fun a => a)
        [AssetEvent.modified 1] x.1)).map
      (fun x => x.1.prepare_next_frame.map Prod.fst) = some [1, 1] ∧
    ¬ ([1, 1] : List Nat).Nodup := by
  decide

/-- Witness for `c6_pending_unique`: carried-over handle `2` and freshly
extracted handle `1`, disjoint, both retried — the resulting queue `[2, 1]`
has no duplicate. -/
theorem c6_witness :
    runCycle mwId prAlwaysRetry sampleAssets1 (fun a => a)
      [AssetEvent.created 1] ⟨[], [(2, 20)], 0⟩ =
      some (⟨[], [(2, 20), (1, 10)], 0⟩,
        [PrepareCall.retry 2 20 20, PrepareCall.retry 1 10 10]) ∧
    ((⟨[], [(2, 20), (1, 10)], (0 : Nat)⟩ :
        PipelineState Nat Nat Nat).prepare_next_frame.map Prod.fst).Nodup :=
  ⟨by decide,
    c6_pending_unique mwId prAlwaysRetry sampleAssets1 (fun a => a)
      [AssetEvent.created 1] ⟨[], [(2, 20)], 0⟩ ⟨[], [(2, 20), (1, 10)], 0⟩
      [PrepareCall.retry 2 20 20, PrepareCall.retry 1 10 10]
      (by decide) (by decide) (by decide)⟩
